import Mathlib

/-!
Verification of the command-interpreter core of `local-ansible-runner`:
resource disambiguation in the VPN query form (`pickMostPossibleFile`),
candidate enumeration (`getLocationVpnFiles`), the dispatch payloads of the VPN action
handlers, and the retry policy of the dispatcher
(`runFunctionWithRetry`).

Strings are modelled as Lean `String` (lists of characters); JavaScript
array/string operations are embedded as executable Lean functions with
the same observable behaviour on the inputs the program uses.
-/

namespace LocalAnsibleRunner

/-- JS `\s` (whitespace class), restricted to the ASCII whitespace
characters: space, tab, line feed, vertical tab, form feed, carriage
return. -/
def isJsSpace (c : Char) : Bool :=
  c = ' ' || c = '\t' || c = '\n' || c = '\r' || c.toNat = 11 || c.toNat = 12

/-- A character kept by the first `replace` in `pickMostPossibleFile`:
`/[^\w\s]|_/g → ""` deletes every character that is neither a word
character (`[A-Za-z0-9_]`) nor whitespace, and also deletes `_` itself,
so the kept characters are exactly the alphanumerics and whitespace. -/
def keptByStrip (c : Char) : Bool :=
  c.isAlphanum || isJsSpace c

/-- The second `replace` in `pickMostPossibleFile`: `/\s+/g → " "`
rewrites every maximal run of whitespace to a single space. The `Bool`
argument records whether the previous character was part of a
whitespace run. -/
def collapseSpacesAux : Bool → List Char → List Char
  | _, [] => []
  | prevSpace, c :: cs =>
    if isJsSpace c then
      if prevSpace then collapseSpacesAux true cs
      else ' ' :: collapseSpacesAux true cs
    else c :: collapseSpacesAux false cs

/-- The candidate normalisation inside `pickMostPossibleFile`:
`vpnFile.replace(/[^\w\s]|_/g, "").replace(/\s+/g, " ")`. -/
def normalizeVpnFile (s : String) : String :=
  ⟨collapseSpacesAux false (s.data.filter keptByStrip)⟩

/-- JS `hay.includes(sub)`: `sub` occurs in `hay` as a contiguous
substring (character-level infix). -/
def strIncludes (hay sub : String) : Bool :=
  decide (sub.data <:+: hay.data)

/-- One iteration of the token loop in `pickMostPossibleFile`, after the
accumulated phrase has been joined:
`filteredFiles = vpnFiles.filter(f => normalize(f).includes(phrase))`,
then `if (filteredFiles.length && filteredFiles.length < files.length)
files = filteredFiles`. -/
def stepFiles (vpnFiles files : List String) (phrase : String) : List String :=
  let filteredFiles := vpnFiles.filter fun vpnFile =>
    strIncludes (normalizeVpnFile vpnFile) phrase
  if filteredFiles.length ≠ 0 ∧ filteredFiles.length < files.length then
    filteredFiles
  else files

/-- The `for (const token of tokens)` loop of `pickMostPossibleFile`:
`acc` is `possibleLocation`, `files` the working set; each token is
appended to the accumulated phrase, joined with `" "`, and the working
set updated by `stepFiles`. -/
def pickLoop (vpnFiles : List String) : List String → List String → List String → List String
  | _, files, [] => files
  | acc, files, t :: ts =>
    pickLoop vpnFiles (acc ++ [t])
      (stepFiles vpnFiles files (String.intercalate " " (acc ++ [t]))) ts

/-- `pickMostPossibleFile(vpnFiles, tokens)` from `VpnQueryForm`: returns
`vpnFiles` unchanged when it has exactly one element, otherwise runs the
greedy narrowing loop starting from a copy of `vpnFiles`. -/
def pickMostPossibleFile (vpnFiles tokens : List String) : List String :=
  if vpnFiles.length = 1 then vpnFiles
  else pickLoop vpnFiles [] vpnFiles tokens

/-- JS `s.toLowerCase()` (ASCII range). -/
def jsToLower (s : String) : String :=
  ⟨s.data.map Char.toLower⟩

/-- `getLocationVpnFiles`, after the directory listing has been obtained:
`files.filter(name => name.toLowerCase().includes(location.toLowerCase()))`. -/
def getLocationVpnFiles (files : List String) (location : String) : List String :=
  files.filter fun name => strIncludes (jsToLower name) (jsToLower location)

/-- JS `Array.prototype.indexOf`: index of the first strictly-equal
element, `-1` when absent. -/
def jsIndexOf (l : List String) (x : String) : Int :=
  match l.findIdx? (· = x) with
  | some i => (i : Int)
  | none => -1

/-- JS `arr.slice(start)` with one argument: a negative `start` counts
from the end (clamped at 0), a `start` beyond the length yields `[]`. -/
def jsSlice (l : List String) (start : Int) : List String :=
  l.drop (if start < 0 then (l.length + start).toNat else start.toNat)

/-- `tokens.slice(tokens.indexOf(location))` in `startVpnHandler`. -/
def tokensAfterLocation (tokens : List String) (location : String) : List String :=
  jsSlice tokens (jsIndexOf tokens location)

/-- JS `s.split(sep)` for a single-character separator, on character
lists; always returns at least one (possibly empty) piece. -/
def splitOnChar (sep : Char) : List Char → List (List Char)
  | [] => [[]]
  | c :: cs =>
    match splitOnChar sep cs with
    | [] => [[]]
    | r :: rs => if c = sep then [] :: r :: rs else (c :: r) :: rs

/-- `const [vpnFileName] = vpnFilePath.split(".")` in `startVpnHandler`:
the first piece of the split. -/
def vpnFileNameOf (path : String) : String :=
  ⟨(splitOnChar '.' path.data).headD []⟩

/-- One hexadecimal digit as produced by the `\u00XX`
escapes of `JSON.stringify` (lower-case letters). -/
def hexDigitChar (n : Nat) : Char :=
  if n < 10 then Char.ofNat (48 + n) else Char.ofNat (87 + n)

/-- `JSON.stringify` escaping of a single character inside a string
literal. -/
def jsonEscapeChar (c : Char) : List Char :=
  if c = '"' then ['\\', '"']
  else if c = '\\' then ['\\', '\\']
  else if c = '\n' then ['\\', 'n']
  else if c = '\r' then ['\\', 'r']
  else if c = '\t' then ['\\', 't']
  else if c.toNat = 8 then ['\\', 'b']
  else if c.toNat = 12 then ['\\', 'f']
  else if c.toNat < 32 then
    ['\\', 'u', '0', '0', hexDigitChar (c.toNat / 16), hexDigitChar (c.toNat % 16)]
  else [c]

/-- `JSON.stringify` of a string value. -/
def jsonQuote (s : String) : String :=
  "\"" ++ ⟨s.data.flatMap jsonEscapeChar⟩ ++ "\""

/-- `JSON.stringify` of the `props` object: `{}` when empty, otherwise
comma-separated `"key":"value"` pairs in insertion order. -/
def serializeProps (props : List (String × String)) : String :=
  "\x7b" ++ String.intercalate ","
    (props.map fun p => jsonQuote p.1 ++ ":" ++ jsonQuote p.2) ++ "\x7d"

/-- `JSON.stringify({ name, props })` as built by the VPN handlers: the
`name` key first, then `props`. -/
def serializeRequest (name : String) (props : List (String × String)) : String :=
  "\x7b\"name\":" ++ jsonQuote name ++ ",\"props\":" ++ serializeProps props ++ "\x7d"

/-- Modelled from the spec: the `ActionTypes.Ansible.VpnStart` constant
lives in `shared/constants.mjs`, which is not among the provided sources;
spec P9 gives the dispatched payload name as `"VpnStart"`. -/
def vpnStartActionName : String := "VpnStart"

/-- Modelled from the spec: the `ActionTypes.Ansible.VpnStop` constant
lives in `shared/constants.mjs`, which is not among the provided sources;
§6 makes the payload `name` the action-type string, named `VpnStop` in
the registration of the form. -/
def vpnStopActionName : String := "VpnStop"

/-- Modelled from the spec: the `ActionTypes.Ansible.VpnStatus` constant
lives in `shared/constants.mjs`, which is not among the provided sources;
§6 makes the payload `name` the action-type string, named `VpnStatus` in
the registration of the form. -/
def vpnStatusActionName : String := "VpnStatus"

/-- The observable side effects a VPN handler performs against the
broker client. -/
inductive Effect where
  | createConnection : Effect
  | sendToChannel (queue : String) (payload : String) : Effect
  deriving DecidableEq, Repr

/-- `startVpnHandler`, with the out-of-scope collaborators supplied as
values: `queueName` is `configService.get("Rabbit.AnsibleQueueName")`,
`dirFiles` the directory listing behind `getLocationVpnFiles`,
`location` the resolved COUNTRY slot value, `tokens` the utterance
tokens. Returns the broker effects performed and whether the handler
completed; destructuring the empty narrowing result makes `vpnFilePath`
`undefined` and `undefined.split` throws before any broker call, giving
`([], false)`. -/
def startVpnHandler (queueName : String) (dirFiles : List String)
    (location : String) (tokens : List String) : List Effect × Bool :=
  let vpnFiles := getLocationVpnFiles dirFiles location
  match pickMostPossibleFile vpnFiles (tokensAfterLocation tokens location) with
  | [] => ([], false)
  | vpnFilePath :: _ =>
    ([Effect.createConnection,
      Effect.sendToChannel queueName
        (serializeRequest vpnStartActionName
          [("vpnFileName", vpnFileNameOf vpnFilePath)])], true)

/-- `stopVpnHandler`: opens the connection and sends
`JSON.stringify({ name: VpnStop, props: {} })`. -/
def stopVpnHandler (queueName : String) : List Effect × Bool :=
  ([Effect.createConnection,
    Effect.sendToChannel queueName (serializeRequest vpnStopActionName [])], true)

/-- `vpnStatusHandler`: opens the connection and sends
`JSON.stringify({ name: VpnStatus, props: {} })`. -/
def vpnStatusHandler (queueName : String) : List Effect × Bool :=
  ([Effect.createConnection,
    Effect.sendToChannel queueName (serializeRequest vpnStatusActionName [])], true)

/-- The outcome of `runFunctionWithRetry`: the final result, how many
times the wrapped function was attempted, and how many times the
recovery callback ran. -/
structure RetryTrace (ε α : Type) where
  result : Except ε α
  attemptCount : Nat
  recoverCount : Nat
  deriving Repr

/-- Modelled from the spec: `runFunctionWithRetry` is imported from
`shared/utils`, which is not among the provided sources. Per §4.4 it
wraps exactly one execution attempt; on failure it invokes the supplied
recovery callback exactly once and retries the original action exactly
once more; a second failure is terminal and propagated. The wrapped
function is modelled as a map from the attempt index (0 or 1) to that
outcome of that attempt; invocations of the recovery callback are
counted in the trace. -/
def runFunctionWithRetry {ε α : Type} (fn : Nat → Except ε α) : RetryTrace ε α :=
  match fn 0 with
  | Except.ok a => ⟨Except.ok a, 1, 0⟩
  | Except.error _ =>
    match fn 1 with
    | Except.ok a => ⟨Except.ok a, 2, 1⟩
    | Except.error e2 => ⟨Except.error e2, 2, 1⟩

/-! ### Invariants of the narrowing loop -/

theorem stepFiles_length_le (vpnFiles files : List String) (phrase : String) :
    (stepFiles vpnFiles files phrase).length ≤ files.length := by
  simp only [stepFiles]
  split
  · exact Nat.le_of_lt (by assumption : _ ∧ _).2
  · exact Nat.le_refl _

theorem stepFiles_sublist (vpnFiles files : List String) (phrase : String)
    (h : files.Sublist vpnFiles) : (stepFiles vpnFiles files phrase).Sublist vpnFiles := by
  simp only [stepFiles]
  split
  · exact List.filter_sublist vpnFiles
  · exact h

theorem stepFiles_ne_nil (vpnFiles files : List String) (phrase : String)
    (h : files ≠ []) : stepFiles vpnFiles files phrase ≠ [] := by
  simp only [stepFiles]
  split
  · next hc =>
    intro hnil
    exact hc.1 (by simp [hnil])
  · exact h

theorem pickLoop_sublist (vpnFiles : List String) (ts : List String) :
    ∀ acc files, files.Sublist vpnFiles →
      (pickLoop vpnFiles acc files ts).Sublist vpnFiles := by
  induction ts with
  | nil => intro acc files h; exact h
  | cons t ts ih =>
    intro acc files h
    exact ih _ _ (stepFiles_sublist _ _ _ h)

theorem pickLoop_ne_nil (vpnFiles : List String) (ts : List String) :
    ∀ acc files, files ≠ [] → pickLoop vpnFiles acc files ts ≠ [] := by
  induction ts with
  | nil => intro acc files h; exact h
  | cons t ts ih =>
    intro acc files h
    exact ih _ _ (stepFiles_ne_nil _ _ _ h)

theorem pickLoop_nil_candidates (ts : List String) :
    ∀ acc files, pickLoop [] acc files ts = files := by
  induction ts with
  | nil => intro acc files; rfl
  | cons t ts ih =>
    intro acc files
    have hstep : stepFiles [] files (String.intercalate " " (acc ++ [t])) = files := by
      simp [stepFiles]
    simp only [pickLoop, hstep]
    exact ih _ _

/-- C1 (Narrowing monotonicity): `pickMostPossibleFile` returns a sublist
of the input candidates; the length of the working set is non-increasing at
each token step; and the result is non-empty whenever the input
candidate list is non-empty. -/
theorem pickMostPossibleFile_narrowing (vpnFiles tokens : List String) :
    (pickMostPossibleFile vpnFiles tokens).Sublist vpnFiles ∧
    (∀ files phrase, (stepFiles vpnFiles files phrase).length ≤ files.length) ∧
    (vpnFiles ≠ [] → pickMostPossibleFile vpnFiles tokens ≠ []) := by
  refine ⟨?_, fun files phrase => stepFiles_length_le vpnFiles files phrase, ?_⟩
  · simp only [pickMostPossibleFile]
    split
    · exact List.Sublist.refl _
    · exact pickLoop_sublist _ _ _ _ (List.Sublist.refl _)
  · intro hne
    simp only [pickMostPossibleFile]
    split
    · exact hne
    · exact pickLoop_ne_nil _ _ _ _ hne

/-- Witness for C1 at a concrete input. -/
theorem pickMostPossibleFile_narrowing_witness :
    (pickMostPossibleFile ["vpn_france_paris.ovpn", "vpn_france_lyon.ovpn"]
      ["paris"]).Sublist ["vpn_france_paris.ovpn", "vpn_france_lyon.ovpn"] ∧
    pickMostPossibleFile ["vpn_france_paris.ovpn", "vpn_france_lyon.ovpn"]
      ["paris"] ≠ [] :=
  ⟨(pickMostPossibleFile_narrowing _ _).1,
   (pickMostPossibleFile_narrowing ["vpn_france_paris.ovpn", "vpn_france_lyon.ovpn"]
      ["paris"]).2.2 (by decide)⟩

/-- C3 (Single-candidate shortcut): a candidate list of length at most 1
is returned unchanged whatever the tokens are. -/
theorem pickMostPossibleFile_single (vpnFiles tokens : List String)
    (h : vpnFiles.length ≤ 1) : pickMostPossibleFile vpnFiles tokens = vpnFiles := by
  match vpnFiles with
  | [] =>
    simp only [pickMostPossibleFile]
    split
    · rfl
    · exact pickLoop_nil_candidates _ _ _
  | [a] => rfl
  | a :: b :: rest => simp at h

/-- Witness for C3 at a concrete input. -/
theorem pickMostPossibleFile_single_witness :
    pickMostPossibleFile ["only.ovpn"] ["random", "tokens"] = ["only.ovpn"] :=
  pickMostPossibleFile_single ["only.ovpn"] ["random", "tokens"] (by decide)

/-- C6 (Narrowing example): with candidates
`["vpn_france_paris.ovpn", "vpn_france_lyon.ovpn"]` and tokens
`["paris"]`, `pickMostPossibleFile` returns exactly
`["vpn_france_paris.ovpn"]`. -/
theorem pickMostPossibleFile_paris_example :
    pickMostPossibleFile ["vpn_france_paris.ovpn", "vpn_france_lyon.ovpn"]
      ["paris"] = ["vpn_france_paris.ovpn"] := by
  decide

/-- C8 (Empty enumeration is terminal): when the location filter leaves
no candidate files, `startVpnHandler` fails before performing any broker
effect — no connection is opened and no message is sent — and the model
contains no retry of the handler. -/
theorem startVpnHandler_empty_enumeration (queueName : String)
    (dirFiles : List String) (location : String) (tokens : List String)
    (h : getLocationVpnFiles dirFiles location = []) :
    startVpnHandler queueName dirFiles location tokens = ([], false) := by
  simp only [startVpnHandler, h]
  have hpick : pickMostPossibleFile [] (tokensAfterLocation tokens location) = [] := by
    simp only [pickMostPossibleFile]
    split
    · rfl
    · exact pickLoop_nil_candidates _ _ _
  simp [hpick]

/-- Witness for C8 at a concrete input. -/
theorem startVpnHandler_empty_enumeration_witness :
    startVpnHandler "ansible-queue" ["germany.ovpn"] "france" ["vpn", "start", "france"]
      = ([], false) :=
  startVpnHandler_empty_enumeration "ansible-queue" ["germany.ovpn"] "france"
    ["vpn", "start", "france"] (by decide)

/-- C4 (Narrowing step rule): each token step filters the original full
candidate list by normalized contiguous-substring containment of the
joined accumulated phrase; the working set is replaced exactly when the
filtered set is non-empty and strictly smaller, and is left unchanged
otherwise; and the loop recursion feeds each updated working set into
the next token. -/
theorem stepFiles_spec (vpnFiles files : List String) (phrase : String) :
    (∀ c, c ∈ vpnFiles.filter (fun f => strIncludes (normalizeVpnFile f) phrase) ↔
        c ∈ vpnFiles ∧ phrase.data <:+: (normalizeVpnFile c).data) ∧
    (vpnFiles.filter (fun f => strIncludes (normalizeVpnFile f) phrase) ≠ [] →
      (vpnFiles.filter (fun f => strIncludes (normalizeVpnFile f) phrase)).length
          < files.length →
      stepFiles vpnFiles files phrase =
        vpnFiles.filter (fun f => strIncludes (normalizeVpnFile f) phrase)) ∧
    (vpnFiles.filter (fun f => strIncludes (normalizeVpnFile f) phrase) = [] ∨
      ¬ (vpnFiles.filter (fun f => strIncludes (normalizeVpnFile f) phrase)).length
          < files.length →
      stepFiles vpnFiles files phrase = files) ∧
    (∀ acc t ts, pickLoop vpnFiles acc files (t :: ts) =
      pickLoop vpnFiles (acc ++ [t])
        (stepFiles vpnFiles files (String.intercalate " " (acc ++ [t]))) ts) := by
  refine ⟨?_, ?_, ?_, fun acc t ts => rfl⟩
  · intro c
    simp [List.mem_filter, strIncludes]
  · intro hne hlt
    simp only [stepFiles]
    split
    · rfl
    · next hc =>
      exact absurd ⟨fun h0 => hne (List.length_eq_zero.mp h0), hlt⟩ hc
  · intro hcase
    simp only [stepFiles]
    split
    · next hc =>
      rcases hcase with hnil | hge
      · exact absurd (by simp [hnil]) hc.1
      · exact absurd hc.2 hge
    · rfl

/-- Witness for C4 at a concrete input. -/
theorem stepFiles_spec_witness :
    stepFiles ["vpn_france_paris.ovpn", "vpn_france_lyon.ovpn"]
        ["vpn_france_paris.ovpn", "vpn_france_lyon.ovpn"] "paris" =
      ["vpn_france_paris.ovpn", "vpn_france_lyon.ovpn"].filter
        (fun f => strIncludes (normalizeVpnFile f) "paris") :=
  (stepFiles_spec ["vpn_france_paris.ovpn", "vpn_france_lyon.ovpn"]
      ["vpn_france_paris.ovpn", "vpn_france_lyon.ovpn"] "paris").2.1
    (by decide) (by decide)

/-- C10 (Case-sensitive narrowing): the substring test normalizes only
the candidate and never lower-cases either side, so a phrase that occurs
in no normalized candidate — for example one differing from a candidate
only in letter case — filters to the empty set and leaves the working
set, and the whole narrowing result, unchanged. -/
theorem pickMostPossibleFile_case_sensitive (vpnFiles files : List String)
    (t : String)
    (h : ∀ c ∈ vpnFiles, ¬ t.data <:+: (normalizeVpnFile c).data) :
    stepFiles vpnFiles files t = files ∧
    pickMostPossibleFile vpnFiles [t] = vpnFiles := by
  have hfilter : vpnFiles.filter (fun f => strIncludes (normalizeVpnFile f) t) = [] := by
    rw [List.filter_eq_nil_iff]
    intro a ha
    simpa [strIncludes] using h a ha
  constructor
  · simp [stepFiles, hfilter]
  · simp only [pickMostPossibleFile]
    split
    · rfl
    · show pickLoop vpnFiles [] vpnFiles [t] = vpnFiles
      have hj : String.intercalate " " ([] ++ [t]) = t := rfl
      simp only [pickLoop, hj]
      simp [stepFiles, hfilter]

/-- Witness for C10: the token "Paris" (capital P) narrows nothing even
though "paris" does. -/
theorem pickMostPossibleFile_case_sensitive_witness :
    stepFiles ["vpn_france_paris.ovpn", "vpn_france_lyon.ovpn"]
        ["vpn_france_paris.ovpn", "vpn_france_lyon.ovpn"] "Paris" =
      ["vpn_france_paris.ovpn", "vpn_france_lyon.ovpn"] ∧
    pickMostPossibleFile ["vpn_france_paris.ovpn", "vpn_france_lyon.ovpn"]
      ["Paris"] = ["vpn_france_paris.ovpn", "vpn_france_lyon.ovpn"] :=
  pickMostPossibleFile_case_sensitive
    ["vpn_france_paris.ovpn", "vpn_france_lyon.ovpn"]
    ["vpn_france_paris.ovpn", "vpn_france_lyon.ovpn"] "Paris" (by decide)

/-- C9 (Case-insensitive candidate selection): `getLocationVpnFiles`
lower-cases both the file name and the location, so its result is
invariant under changing the letter case of the location, and membership
is exactly lower-cased substring containment. -/
theorem getLocationVpnFiles_case_insensitive (files : List String)
    (l1 l2 : String) (h : jsToLower l1 = jsToLower l2) :
    getLocationVpnFiles files l1 = getLocationVpnFiles files l2 ∧
    ∀ name, name ∈ getLocationVpnFiles files l1 ↔
      name ∈ files ∧ (jsToLower l1).data <:+: (jsToLower name).data := by
  constructor
  · simp only [getLocationVpnFiles, h]
  · intro name
    simp [getLocationVpnFiles, List.mem_filter, strIncludes]

/-- Witness for C9 at a concrete input. -/
theorem getLocationVpnFiles_case_insensitive_witness :
    getLocationVpnFiles ["vpn_France_paris.ovpn", "de.ovpn"] "FRANCE" =
      getLocationVpnFiles ["vpn_France_paris.ovpn", "de.ovpn"] "france" ∧
    ("vpn_France_paris.ovpn" ∈ getLocationVpnFiles
        ["vpn_France_paris.ovpn", "de.ovpn"] "FRANCE" ↔
      "vpn_France_paris.ovpn" ∈ (["vpn_France_paris.ovpn", "de.ovpn"] : List String) ∧
        (jsToLower "FRANCE").data <:+: (jsToLower "vpn_France_paris.ovpn").data) :=
  ⟨(getLocationVpnFiles_case_insensitive ["vpn_France_paris.ovpn", "de.ovpn"]
      "FRANCE" "france" (by decide)).1,
   (getLocationVpnFiles_case_insensitive ["vpn_France_paris.ovpn", "de.ovpn"]
      "FRANCE" "france" (by decide)).2 "vpn_France_paris.ovpn"⟩

theorem tokensAfterLocation_cons_ne (t : String) (ts : List String)
    (location : String) (ht : ¬ t = location) (hts : location ∈ ts) :
    tokensAfterLocation (t :: ts) location = tokensAfterLocation ts location := by
  obtain ⟨i, hi⟩ : ∃ i, ts.findIdx? (fun a => a = location) = some i := by
    cases hfi : ts.findIdx? (fun a => a = location) with
    | some i => exact ⟨i, rfl⟩
    | none =>
      rw [List.findIdx?_eq_none_iff] at hfi
      have hcontra := hfi location hts
      simp at hcontra
  have hidx1 : jsIndexOf ts location = (i : Int) := by
    simp [jsIndexOf, hi]
  have hidx2 : jsIndexOf (t :: ts) location = (i : Int) + 1 := by
    simp [jsIndexOf, List.findIdx?_cons, ht, List.findIdx?_start_succ, hi]
  simp only [tokensAfterLocation, hidx1, hidx2, jsSlice]
  rw [if_neg (by omega : ¬ ((i : Int) + 1 < 0)), if_neg (by omega : ¬ ((i : Int) < 0))]
  have h3 : ((i : Int) + 1).toNat = i + 1 := by omega
  have h4 : ((i : Int)).toNat = i := by omega
  rw [h3, h4, List.drop_succ_cons]

/-- C7 (Token window for disambiguation): when the token list contains
the resolved location value, the token window handed to the
disambiguator is exactly the suffix of the token list starting at the
first occurrence of the location token. -/
theorem tokensAfterLocation_spec (tokens : List String) (location : String)
    (h : location ∈ tokens) :
    ∃ pre suf, tokens = pre ++ location :: suf ∧ location ∉ pre ∧
      tokensAfterLocation tokens location = location :: suf := by
  induction tokens with
  | nil => cases h
  | cons t ts ih =>
    by_cases ht : t = location
    · subst ht
      refine ⟨[], ts, rfl, by simp, ?_⟩
      simp [tokensAfterLocation, jsIndexOf, jsSlice, List.findIdx?_cons]
    · have hts : location ∈ ts := by
        cases List.mem_cons.mp h with
        | inl h1 => exact absurd h1.symm ht
        | inr h2 => exact h2
      obtain ⟨pre, suf, heq, hpre, hslice⟩ := ih hts
      refine ⟨t :: pre, suf, by rw [List.cons_append, heq], ?_, ?_⟩
      · intro hmem
        cases List.mem_cons.mp hmem with
        | inl h1 => exact ht h1.symm
        | inr h2 => exact hpre h2
      · rw [tokensAfterLocation_cons_ne t ts location ht hts]
        exact hslice

/-- Witness for C7 at a concrete input. -/
theorem tokensAfterLocation_spec_witness :
    ∃ pre suf, ["vpn", "start", "France", "Paris"] = pre ++ "France" :: suf ∧
      "France" ∉ pre ∧
      tokensAfterLocation ["vpn", "start", "France", "Paris"] "France" =
        "France" :: suf :=
  tokensAfterLocation_spec ["vpn", "start", "France", "Paris"] "France" (by decide)

theorem splitOnChar_ne_nil (sep : Char) (l : List Char) : splitOnChar sep l ≠ [] := by
  cases l with
  | nil => simp [splitOnChar]
  | cons c cs =>
    simp only [splitOnChar]
    cases hs : splitOnChar sep cs with
    | nil => simp
    | cons r rs => by_cases hcs : c = sep <;> simp [hcs]

theorem splitOnChar_head_takeWhile (sep : Char) (l : List Char) :
    (splitOnChar sep l).headD [] = l.takeWhile (fun c => c ≠ sep) := by
  induction l with
  | nil => rfl
  | cons c cs ih =>
    simp only [splitOnChar]
    cases hs : splitOnChar sep cs with
    | nil => exact absurd hs (splitOnChar_ne_nil sep cs)
    | cons r rs =>
      have hr : r = cs.takeWhile (fun x => decide (x ≠ sep)) := by
        have hh := ih
        rw [hs] at hh
        simpa using hh
      by_cases hc : c = sep
      · subst hc
        simp [List.takeWhile_cons]
      · simp [List.takeWhile_cons, hc, hr]

/-- The first piece of a split equals truncation at the first separator. -/
theorem vpnFileNameOf_takeWhile (s : String) :
    vpnFileNameOf s = ⟨s.data.takeWhile (fun c => c ≠ '.')⟩ := by
  unfold vpnFileNameOf
  rw [splitOnChar_head_takeWhile]

/-- C5 (Dispatch wire payload shape): each VPN handler sends exactly one
message, the JSON serialization of an object with keys `name` and
`props`; VpnStop and VpnStatus carry an empty `props` object, and a
completing VpnStart carries exactly the key `vpnFileName`, bound to the
chosen candidate file name truncated at its first dot. -/
theorem vpnHandlers_payload (queueName : String) (dirFiles : List String)
    (location : String) (tokens : List String) :
    stopVpnHandler queueName =
      ([Effect.createConnection,
        Effect.sendToChannel queueName (serializeRequest vpnStopActionName [])], true) ∧
    vpnStatusHandler queueName =
      ([Effect.createConnection,
        Effect.sendToChannel queueName (serializeRequest vpnStatusActionName [])], true) ∧
    (∀ chosen rest,
      pickMostPossibleFile (getLocationVpnFiles dirFiles location)
          (tokensAfterLocation tokens location) = chosen :: rest →
      startVpnHandler queueName dirFiles location tokens =
        ([Effect.createConnection,
          Effect.sendToChannel queueName
            (serializeRequest vpnStartActionName
              [("vpnFileName",
                ⟨chosen.data.takeWhile (fun c => c ≠ '.')⟩)])], true)) := by
  refine ⟨rfl, rfl, ?_⟩
  intro chosen rest hpick
  simp only [startVpnHandler, hpick, vpnFileNameOf_takeWhile]

/-- Witness for C5 at a concrete input. -/
theorem vpnHandlers_payload_witness :
    startVpnHandler "ansible-queue"
        ["vpn_france_paris.ovpn", "vpn_france_lyon.ovpn"] "france"
        ["vpn", "start", "france", "paris"] =
      ([Effect.createConnection,
        Effect.sendToChannel "ansible-queue"
          (serializeRequest vpnStartActionName
            [("vpnFileName",
              ⟨"vpn_france_paris.ovpn".data.takeWhile (fun c => c ≠ '.')⟩)])], true) :=
  (vpnHandlers_payload "ansible-queue"
      ["vpn_france_paris.ovpn", "vpn_france_lyon.ovpn"] "france"
      ["vpn", "start", "france", "paris"]).2.2
    "vpn_france_paris.ovpn" ["vpn_france_lyon.ovpn"] (by decide)

/-- C2 (Retry-once semantics): `runFunctionWithRetry` attempts the
wrapped function once; on success it stops after one attempt with no
recovery; on a first failure it runs recovery exactly once and retries
exactly once, returning the retried success or propagating the second
failure; recovery never runs more than once and there are never more
than two attempts. -/
theorem runFunctionWithRetry_spec {ε α : Type} (fn : Nat → Except ε α) :
    (∀ a, fn 0 = Except.ok a →
      runFunctionWithRetry fn = ⟨Except.ok a, 1, 0⟩) ∧
    (∀ e a, fn 0 = Except.error e → fn 1 = Except.ok a →
      runFunctionWithRetry fn = ⟨Except.ok a, 2, 1⟩) ∧
    (∀ e e2, fn 0 = Except.error e → fn 1 = Except.error e2 →
      runFunctionWithRetry fn = ⟨Except.error e2, 2, 1⟩) ∧
    (runFunctionWithRetry fn).recoverCount ≤ 1 ∧
    (runFunctionWithRetry fn).attemptCount ≤ 2 := by
  refine ⟨?_, ?_, ?_, ?_, ?_⟩
  · intro a h0
    simp [runFunctionWithRetry, h0]
  · intro e a h0 h1
    simp [runFunctionWithRetry, h0, h1]
  · intro e e2 h0 h1
    simp [runFunctionWithRetry, h0, h1]
  · simp only [runFunctionWithRetry]
    cases fn 0 <;> simp
    cases fn 1 <;> simp
  · simp only [runFunctionWithRetry]
    cases fn 0 <;> simp
    cases fn 1 <;> simp

/-- A wrapped function that fails on the first attempt and succeeds on
the retry. -/
def exampleRetryFn : Nat → Except String Nat :=
  fun n => if n = 0 then Except.error "expired credential" else Except.ok 7

/-- Witness for C2: one failure, one recovery, retried success. -/
theorem runFunctionWithRetry_spec_witness :
    runFunctionWithRetry exampleRetryFn = ⟨Except.ok 7, 2, 1⟩ :=
  (runFunctionWithRetry_spec exampleRetryFn).2.1 "expired credential" 7 rfl rfl

end LocalAnsibleRunner
